import Mathlib

/-!
# Verification of `psfpy.fitter` (regularizepsf)

A shallow embedding of `src/psfpy/fitter.py` and proofs about it.

Modelling conventions:
* numpy 2-D `float` arrays are `List (List ℚ)` (a list of rows); exact
  rationals stand in for IEEE doubles (no claim here depends on rounding,
  and no NaN/inf arises on the inputs considered, so `np.nansum` and
  `np.nanmedian` act as plain sum and median).
* Python `dict`s are association lists that keep insertion order; an
  overwrite keeps the key at its original position, exactly as CPython
  dicts do.
* Python `list` slicing (`a[i:j]`, used by numpy basic indexing) is
  embedded with its real semantics: negative bounds count from the end
  and bounds are clamped, so a slice can be shorter than `j - i`.
* Exceptions are `Except` values; `raise` is `Except.error`.
* Methods that in Python could mutate `self` are embedded in
  state-passing style, returning the resulting `self` next to the
  result, so non-mutation is a provable statement.
-/

/-- A numpy 2-D array of floats: a list of rows of rationals. -/
abbrev Patch : Type := List (List ℚ)

/-- An image is also a 2-D array. -/
abbrev Image : Type := List (List ℚ)

/-- `CoordinateIdentifier = namedtuple("CoordinateIdentifier", "image_index, x, y")`.
The `image_index` is `none` for aggregated patches (`CoordinateIdentifier(None, ...)`). -/
structure CoordinateIdentifier where
  image_index : Option ℕ
  x : ℤ
  y : ℤ
deriving DecidableEq, Repr

/-- First-match lookup in an association list (Python `d[k]` / `k in d`). -/
def assocLookup (l : List (CoordinateIdentifier × Patch)) (k : CoordinateIdentifier) :
    Option Patch :=
  match l with
  | [] => none
  | (k2, v) :: rest => if k2 = k then some v else assocLookup rest k

/-- Python `d[k] = v` on an insertion-ordered dict: overwrite in place if the
key is present, otherwise append at the end. -/
def dictInsert (l : List (CoordinateIdentifier × Patch)) (k : CoordinateIdentifier)
    (v : Patch) : List (CoordinateIdentifier × Patch) :=
  if (assocLookup l k).isSome then
    l.map (fun kv => if kv.1 = k then (kv.1, v) else kv)
  else
    l ++ [(k, v)]

theorem assocLookup_overwriteMap (l : List (CoordinateIdentifier × Patch))
    (k : CoordinateIdentifier) (v : Patch) (q : CoordinateIdentifier) :
    assocLookup (l.map (fun kv => if kv.1 = k then (kv.1, v) else kv)) q
      = (assocLookup l q).map (fun w => if q = k then v else w) := by
  induction l with
  | nil => rfl
  | cons kv rest ih =>
    obtain ⟨k2, v2⟩ := kv
    rw [List.map_cons]
    by_cases hk : (k2, v2).1 = k
    · rw [if_pos hk]
      by_cases hq : k2 = q
      · rw [assocLookup, assocLookup, if_pos hq, if_pos hq]
        have hqk : q = k := by rw [← hq]; exact hk
        simp [hqk]
      · rw [assocLookup, assocLookup, if_neg hq, if_neg hq, ih]
    · rw [if_neg hk]
      by_cases hq : k2 = q
      · rw [assocLookup, assocLookup, if_pos hq, if_pos hq]
        have hqk : ¬ q = k := fun h => hk (by rw [hq, h])
        simp [hqk]
      · rw [assocLookup, assocLookup, if_neg hq, if_neg hq, ih]

theorem assocLookup_append_single (l : List (CoordinateIdentifier × Patch))
    (k : CoordinateIdentifier) (v : Patch) (q : CoordinateIdentifier) :
    assocLookup (l ++ [(k, v)]) q
      = if (assocLookup l q).isSome then assocLookup l q
        else if k = q then some v else none := by
  induction l with
  | nil => rfl
  | cons kv rest ih =>
    obtain ⟨k2, v2⟩ := kv
    rw [List.cons_append, assocLookup, assocLookup]
    by_cases hq : k2 = q
    · rw [if_pos hq, if_pos hq]
      rfl
    · rw [if_neg hq, if_neg hq, ih]

theorem assocLookup_dictInsert_self (l : List (CoordinateIdentifier × Patch))
    (k : CoordinateIdentifier) (v : Patch) :
    assocLookup (dictInsert l k v) k = some v := by
  unfold dictInsert
  by_cases h : (assocLookup l k).isSome
  · rw [if_pos h, assocLookup_overwriteMap]
    obtain ⟨w, hw⟩ := Option.isSome_iff_exists.mp h
    rw [hw]
    simp
  · rw [if_neg h, assocLookup_append_single, if_neg h, if_pos rfl]

theorem assocLookup_dictInsert_other (l : List (CoordinateIdentifier × Patch))
    (k k2 : CoordinateIdentifier) (v : Patch) (hne : k2 ≠ k) :
    assocLookup (dictInsert l k v) k2 = assocLookup l k2 := by
  unfold dictInsert
  by_cases h : (assocLookup l k).isSome
  · rw [if_pos h, assocLookup_overwriteMap]
    cases hl : assocLookup l k2 with
    | none => rfl
    | some w => simp [hne]
  · rw [if_neg h, assocLookup_append_single]
    cases hl : assocLookup l k2 with
    | none =>
      simp only [Option.isSome_none, Bool.false_eq_true, if_false]
      rw [if_neg (fun hkq => hne (Eq.symm hkq))]
    | some w => simp [hl]

theorem length_dictInsert_mem (l : List (CoordinateIdentifier × Patch))
    (k : CoordinateIdentifier) (v : Patch) (h : (assocLookup l k).isSome) :
    (dictInsert l k v).length = l.length := by
  unfold dictInsert
  rw [if_pos h, List.length_map]

theorem keys_dictInsert_mem (l : List (CoordinateIdentifier × Patch))
    (k : CoordinateIdentifier) (v : Patch) (h : (assocLookup l k).isSome) :
    (dictInsert l k v).map Prod.fst = l.map Prod.fst := by
  unfold dictInsert
  rw [if_pos h, List.map_map]
  apply List.map_congr_left
  intro kv _
  by_cases hk : kv.1 = k <;> simp [hk]

theorem keys_dictInsert_not_mem (l : List (CoordinateIdentifier × Patch))
    (k : CoordinateIdentifier) (v : Patch) (h : ¬ (assocLookup l k).isSome) :
    (dictInsert l k v).map Prod.fst = l.map Prod.fst ++ [k] := by
  unfold dictInsert
  rw [if_neg h, List.map_append]
  rfl

/-- The state of a `PatchCollectionABC` instance: the `_patches` dict and the
`_size` field (`None` when the collection is empty). -/
structure PatchCollection where
  patches : List (CoordinateIdentifier × Patch)
  size : Option ℕ
deriving DecidableEq, Repr

namespace PatchCollection

/-- `PatchCollectionABC.__init__`: store the dict; `_size` is the first
patch's `shape[0]` (its number of rows) when the dict is non-empty. -/
def init (patches : List (CoordinateIdentifier × Patch)) : PatchCollection :=
  match patches with
  | [] => ⟨[], none⟩
  | (k, p) :: rest => ⟨(k, p) :: rest, some p.length⟩

/-- `PatchCollectionABC.__len__`. -/
def lengthOf (c : PatchCollection) : ℕ := c.patches.length

/-- `PatchCollectionABC.add`: warn (the returned `Bool`) when the identifier
is already present, write the patch, and set `_size` from this patch when it
was `None`. -/
def add (c : PatchCollection) (identifier : CoordinateIdentifier) (patch : Patch) :
    PatchCollection × Bool :=
  let warned := (assocLookup c.patches identifier).isSome
  let patches := dictInsert c.patches identifier patch
  let size := match c.size with
    | none => some patch.length
    | some s => some s
  (⟨patches, size⟩, warned)

/-- `PatchCollectionABC.save`. Modelled from the spec: `dd.io.save` (the
`deepdish` persistence collaborator, outside this repository) is a thin
pass-through that stores the identifier→array mapping verbatim, so
persistence is embedded as producing that mapping. -/
def save (c : PatchCollection) : List (CoordinateIdentifier × Patch) := c.patches

/-- `PatchCollectionABC.load`. Modelled from the spec: `dd.io.load` returns
the persisted mapping bit-identically; `load` then rebuilds the collection
through `__init__` (`cls(dd.io.load(path))`). -/
def load (stored : List (CoordinateIdentifier × Patch)) : PatchCollection :=
  init stored

end PatchCollection

/-! ## Python list slicing and numpy padding -/

/-- Normalize one Python slice bound for a list of length `n`: negative
bounds count from the end, and bounds are clamped into `[0, n]`. -/
def pySliceIdx (n : ℕ) (a : ℤ) : ℕ :=
  if a < 0 then (n + a).toNat else min a.toNat n

/-- Python `l[a:b]` (step 1): the elements with index in
`[pySliceIdx n a, pySliceIdx n b)`. -/
def pySlice {α : Type} (l : List α) (a b : ℤ) : List α :=
  (l.take (pySliceIdx l.length b)).drop (pySliceIdx l.length a)

/-- numpy 2-D basic slicing `m[r0:r1, c0:c1]`. -/
def slice2d (m : List (List ℚ)) (r0 r1 c0 c1 : ℤ) : List (List ℚ) :=
  (pySlice m r0 r1).map (fun row => pySlice row c0 c1)

/-- A row of `w` zeros. -/
def zerosRow (w : ℕ) : List ℚ := List.replicate w 0

/-- `np.zeros((n, m))`. -/
def zeros2d (n m : ℕ) : Patch := List.replicate n (zerosRow m)

/-- `np.pad(img, ((amt, amt), (amt, amt)), mode='constant')`: `amt` rows of
zeros above and below, `amt` zeros on each side of every row.  The width is
read off the first row (numpy arrays are rectangular). -/
def padImage (img : Image) (amt : ℕ) : Image :=
  List.replicate amt (zerosRow ((img.headD []).length + 2 * amt)) ++
    img.map (fun row => zerosRow amt ++ row ++ zerosRow amt) ++
    List.replicate amt (zerosRow ((img.headD []).length + 2 * amt))

/-- Entry `(i, j)` of a 2-D array, with numpy's out-of-range entries read as
the padding value `0` (used only where the access is in range or where the
surrounding value is zero anyway). -/
def get2d (m : List (List ℚ)) (i j : ℕ) : ℚ := (m.getD i []).getD j 0

theorem assocLookup_isSome_iff_mem_keys (l : List (CoordinateIdentifier × Patch))
    (q : CoordinateIdentifier) :
    (assocLookup l q).isSome = true ↔ q ∈ l.map Prod.fst := by
  induction l with
  | nil => simp [assocLookup]
  | cons kv rest ih =>
    obtain ⟨k2, v2⟩ := kv
    rw [assocLookup]
    by_cases hq : k2 = q
    · simp [hq]
    · simp only [if_neg hq, List.map_cons, List.mem_cons, ih]
      constructor
      · intro h
        exact Or.inr h
      · intro h
        cases h with
        | inl h => exact absurd h.symm hq
        | inr h => exact h

/-! ## `CoordinatePatchCollection.extract` -/

/-- The patch sliced for one coordinate out of an already padded image:
`padded[x+size : x+2*size, y+size : y+2*size]`. -/
def extractPatch (paddedImage : Image) (size : ℕ) (x y : ℤ) : Patch :=
  slice2d paddedImage (x + size) (x + 2 * size) (y + size) (y + 2 * size)

/-- `CoordinatePatchCollection.extract`: pad every image by `size` with
zeros, then slice one window per coordinate and `add` it to a fresh
collection, keyed by the coordinate. -/
def CoordinatePatchCollection.extract (images : List Image)
    (coordinates : List CoordinateIdentifier) (size : ℕ) : PatchCollection :=
  let padded_images := images.map (fun image => padImage image size)
  coordinates.foldl
    (fun out coordinate =>
      let paddedImage := match coordinate.image_index with
        | some i => padded_images.getD i []
        | none => []
      (out.add coordinate (extractPatch paddedImage size coordinate.x coordinate.y)).1)
    (PatchCollection.init [])

/-- The patch `extract` produces for a given coordinate. -/
def extractedPatchOf (images : List Image) (size : ℕ)
    (coordinate : CoordinateIdentifier) : Patch :=
  extractPatch
    (match coordinate.image_index with
      | some i => (images.map (fun image => padImage image size)).getD i []
      | none => [])
    size coordinate.x coordinate.y

/-- Folding `add` with a key-determined patch: lookup afterwards finds the
determined patch for every key that was folded in. -/
theorem foldl_add_lookup (f : CoordinateIdentifier → Patch)
    (coords : List CoordinateIdentifier) (c0 : PatchCollection)
    (q : CoordinateIdentifier) :
    assocLookup
      ((coords.foldl (fun out cd => (out.add cd (f cd)).1) c0).patches) q
      = if q ∈ coords then some (f q) else assocLookup c0.patches q := by
  induction coords generalizing c0 with
  | nil => simp
  | cons cd cs ih =>
    rw [List.foldl_cons, ih]
    by_cases hcs : q ∈ cs
    · rw [if_pos hcs, if_pos (List.mem_cons_of_mem cd hcs)]
    · rw [if_neg hcs]
      by_cases hcd : q = cd
      · rw [if_pos (by rw [hcd]; exact List.mem_cons_self cd cs)]
        show assocLookup (dictInsert c0.patches cd (f cd)) q = some (f q)
        rw [hcd, assocLookup_dictInsert_self]
      · rw [if_neg (by simp [hcd, hcs])]
        show assocLookup (dictInsert c0.patches cd (f cd)) q = assocLookup c0.patches q
        exact assocLookup_dictInsert_other _ _ _ _ hcd

/-- Folding `add`: the key list afterwards is the fold that appends each
new key once (Python dict key order). -/
theorem foldl_add_keys (f : CoordinateIdentifier → Patch)
    (coords : List CoordinateIdentifier) (c0 : PatchCollection) :
    ((coords.foldl (fun out cd => (out.add cd (f cd)).1) c0).patches).map Prod.fst
      = coords.foldl (fun acc cd => if cd ∈ acc then acc else acc ++ [cd])
          (c0.patches.map Prod.fst) := by
  induction coords generalizing c0 with
  | nil => rfl
  | cons cd cs ih =>
    rw [List.foldl_cons, List.foldl_cons, ih]
    congr 1
    show (dictInsert c0.patches cd (f cd)).map Prod.fst = _
    by_cases h : cd ∈ c0.patches.map Prod.fst
    · rw [if_pos h]
      exact keys_dictInsert_mem _ _ _ ((assocLookup_isSome_iff_mem_keys _ _).mpr h)
    · rw [if_neg h]
      exact keys_dictInsert_not_mem _ _ _
        (fun hs => h ((assocLookup_isSome_iff_mem_keys _ _).mp hs))

/-- The distinct elements of a list, first occurrences kept, in order: the
key order of a Python dict built by repeated insertion. -/
def eraseDupsKeepFirst (l : List CoordinateIdentifier) : List CoordinateIdentifier :=
  l.foldl (fun acc cd => if cd ∈ acc then acc else acc ++ [cd]) []

/-! ## Lemmas about slicing and padding -/

theorem pySliceIdx_eq (n : ℕ) (a : ℤ) (h0 : 0 ≤ a) (hn : a ≤ n) :
    pySliceIdx n a = a.toNat := by
  unfold pySliceIdx
  rw [if_neg (not_lt.mpr h0)]
  omega

theorem pySlice_length {α : Type} (l : List α) (a b : ℤ) (h0 : 0 ≤ a)
    (hab : a ≤ b) (hb : b ≤ l.length) :
    (pySlice l a b).length = (b - a).toNat := by
  unfold pySlice
  rw [pySliceIdx_eq _ _ (le_trans h0 hab) hb, pySliceIdx_eq _ _ h0 (le_trans hab hb),
    List.length_drop, List.length_take]
  omega

theorem pySlice_getD {α : Type} (l : List α) (a b : ℤ) (d : α) (i : ℕ) (h0 : 0 ≤ a)
    (hab : a ≤ b) (hb : b ≤ l.length) (hi : (i : ℤ) < b - a) :
    (pySlice l a b).getD i d = l.getD (a.toNat + i) d := by
  unfold pySlice
  rw [pySliceIdx_eq _ _ (le_trans h0 hab) hb, pySliceIdx_eq _ _ h0 (le_trans hab hb),
    List.getD_eq_getElem?_getD, List.getD_eq_getElem?_getD, List.getElem?_drop,
    List.getElem?_take, if_pos (by omega)]

theorem getD_zerosRow (w c : ℕ) : (zerosRow w).getD c 0 = 0 := by
  unfold zerosRow
  rw [List.getD_eq_getElem?_getD, List.getElem?_replicate]
  split <;> rfl

theorem getD_replicate_row (n : ℕ) (z : List ℚ) (i : ℕ) (h : i < n) :
    (List.replicate n z).getD i [] = z := by
  rw [List.getD_eq_getElem?_getD, List.getElem?_replicate, if_pos h]
  rfl

theorem getD_padRow (row : List ℚ) (amt w : ℕ) (hrow : row.length = w) (c : ℕ) :
    (zerosRow amt ++ row ++ zerosRow amt).getD c 0 =
      if amt ≤ c ∧ c < amt + w then row.getD (c - amt) 0 else 0 := by
  have hz : (zerosRow amt).length = amt := by simp [zerosRow]
  rw [List.append_assoc]
  by_cases h1 : c < amt
  · rw [List.getD_append _ _ _ _ (by omega), getD_zerosRow, if_neg (by omega)]
  · rw [List.getD_append_right _ _ _ _ (by omega), hz]
    by_cases h2 : c - amt < w
    · rw [List.getD_append _ _ _ _ (by omega), if_pos (by omega)]
    · rw [List.getD_append_right _ _ _ _ (by omega), getD_zerosRow, if_neg (by omega)]

theorem get2d_padImage (img : Image) (w amt : ℕ)
    (hw : ∀ row ∈ img, row.length = w) (hh : (img.headD []).length = w)
    (r c : ℕ) :
    get2d (padImage img amt) r c =
      if amt ≤ r ∧ r < amt + img.length ∧ amt ≤ c ∧ c < amt + w
      then get2d img (r - amt) (c - amt) else 0 := by
  unfold get2d padImage
  rw [hh]
  have hA : (List.replicate amt (zerosRow (w + 2 * amt))).length = amt := by simp
  have hB : (img.map (fun row => zerosRow amt ++ row ++ zerosRow amt)).length
      = img.length := by simp
  rw [List.append_assoc]
  by_cases h1 : r < amt
  · rw [List.getD_append _ _ _ _ (by omega), getD_replicate_row _ _ _ h1,
      getD_zerosRow, if_neg (by omega)]
  · rw [List.getD_append_right _ _ _ _ (by omega), hA]
    by_cases h2 : r - amt < img.length
    · rw [List.getD_append _ _ _ _ (by omega)]
      have hrow : (img.map (fun row => zerosRow amt ++ row ++ zerosRow amt)).getD
          (r - amt) [] = zerosRow amt ++ img.getD (r - amt) [] ++ zerosRow amt := by
        rw [List.getD_eq_getElem?_getD, List.getElem?_map,
          List.getElem?_eq_getElem h2, List.getD_eq_getElem?_getD,
          List.getElem?_eq_getElem h2]
        rfl
      have hmem : img.getD (r - amt) [] ∈ img := by
        rw [List.getD_eq_getElem?_getD, List.getElem?_eq_getElem h2]
        simp only [Option.getD_some]
        exact List.getElem_mem h2
      rw [hrow, getD_padRow _ _ w (hw _ hmem) c]
      by_cases h3 : amt ≤ c ∧ c < amt + w
      · rw [if_pos h3, if_pos (by omega)]
      · rw [if_neg h3, if_neg (by omega)]
    · rw [List.getD_append_right _ _ _ _ (by omega), hB]
      by_cases h3 : r - amt - img.length < amt
      · rw [getD_replicate_row _ _ _ h3, getD_zerosRow, if_neg (by omega)]
      · have hrow0 : (List.replicate amt (zerosRow (w + 2 * amt))).getD
            (r - amt - img.length) [] = [] := by
          rw [List.getD_eq_getElem?_getD, List.getElem?_replicate, if_neg (by omega)]
          rfl
        rw [hrow0, if_neg (by omega)]
        rfl

theorem length_padImage (img : Image) (amt : ℕ) :
    (padImage img amt).length = img.length + 2 * amt := by
  unfold padImage
  rw [List.length_append, List.length_append, List.length_replicate, List.length_map]
  omega

theorem row_mem_padImage (img : Image) (w amt : ℕ)
    (hw : ∀ row ∈ img, row.length = w) (hh : (img.headD []).length = w) :
    ∀ row ∈ padImage img amt, row.length = w + 2 * amt := by
  intro row hmem
  unfold padImage at hmem
  rw [hh] at hmem
  rcases List.mem_append.mp hmem with h | h
  · rcases List.mem_append.mp h with h2 | h2
    · rw [List.eq_of_mem_replicate h2]
      simp [zerosRow]
    · obtain ⟨r, hr, hreq⟩ := List.mem_map.mp h2
      rw [← hreq, List.length_append, List.length_append]
      simp only [zerosRow, List.length_replicate]
      rw [hw r hr]
      omega
  · rw [List.eq_of_mem_replicate h]
    simp [zerosRow]

theorem getD_map_pySlice (l : List (List ℚ)) (c0 c1 : ℤ) (i : ℕ) :
    (l.map (fun row => pySlice row c0 c1)).getD i []
      = pySlice (l.getD i []) c0 c1 := by
  rw [List.getD_eq_getElem?_getD, List.getElem?_map, List.getD_eq_getElem?_getD]
  cases l[i]? with
  | none =>
    show ([] : List ℚ) = pySlice [] c0 c1
    simp [pySlice]
  | some row => rfl

theorem getD_mem_of_lt {α : Type} (l : List α) (d : α) (i : ℕ) (h : i < l.length) :
    l.getD i d ∈ l := by
  rw [List.getD_eq_getElem?_getD, List.getElem?_eq_getElem h]
  simp only [Option.getD_some]
  exact List.getElem_mem h

theorem extractPatch_length (img : Image) (size : ℕ) (x y : ℤ)
    (hx0 : -(size : ℤ) ≤ x) (hx1 : x ≤ (img.length : ℤ)) :
    (extractPatch (padImage img size) size x y).length = size := by
  unfold extractPatch slice2d
  rw [List.length_map,
    pySlice_length _ _ _ (by omega) (by omega)
      (by rw [length_padImage]; push_cast; omega)]
  omega

theorem extractPatch_rows (img : Image) (w size : ℕ) (x y : ℤ)
    (hw : ∀ row ∈ img, row.length = w) (hh : (img.headD []).length = w)
    (hy0 : -(size : ℤ) ≤ y) (hy1 : y ≤ (w : ℤ)) :
    ∀ row ∈ extractPatch (padImage img size) size x y, row.length = size := by
  intro row hmem
  unfold extractPatch slice2d at hmem
  obtain ⟨row0, hrow0, hreq⟩ := List.mem_map.mp hmem
  have hrow0mem : row0 ∈ padImage img size := by
    unfold pySlice at hrow0
    exact List.mem_of_mem_take (List.mem_of_mem_drop hrow0)
  have hlen0 : row0.length = w + 2 * size := row_mem_padImage img w size hw hh row0 hrow0mem
  rw [← hreq,
    pySlice_length _ _ _ (by omega) (by omega) (by rw [hlen0]; push_cast; omega)]
  omega

theorem extractPatch_get2d (img : Image) (w size : ℕ) (x y : ℤ)
    (hw : ∀ row ∈ img, row.length = w) (hh : (img.headD []).length = w)
    (hx0 : -(size : ℤ) ≤ x) (hx1 : x ≤ (img.length : ℤ))
    (hy0 : -(size : ℤ) ≤ y) (hy1 : y ≤ (w : ℤ))
    (i j : ℕ) (hi : i < size) (hj : j < size) :
    get2d (extractPatch (padImage img size) size x y) i j
      = if 0 ≤ x + i ∧ x + i < (img.length : ℤ) ∧ 0 ≤ y + j ∧ y + j < (w : ℤ)
        then get2d img (x + i).toNat (y + j).toNat else 0 := by
  have hplen : (padImage img size).length = img.length + 2 * size :=
    length_padImage img size
  have hrows : ∀ row ∈ padImage img size, row.length = w + 2 * size :=
    row_mem_padImage img w size hw hh
  unfold get2d extractPatch slice2d
  rw [getD_map_pySlice,
    pySlice_getD (padImage img size) (x + size) (x + 2 * size) [] i
      (by omega) (by omega) (by rw [hplen]; push_cast; omega) (by omega)]
  have hRlt : (x + size).toNat + i < (padImage img size).length := by
    rw [hplen]; omega
  have hrow0len : ((padImage img size).getD ((x + size).toNat + i) []).length
      = w + 2 * size := hrows _ (getD_mem_of_lt _ _ _ hRlt)
  rw [pySlice_getD ((padImage img size).getD ((x + size).toNat + i) [])
      (y + size) (y + 2 * size) 0 j
      (by omega) (by omega) (by rw [hrow0len]; push_cast; omega) (by omega)]
  have hmain := get2d_padImage img w size hw hh ((x + size).toNat + i)
    ((y + size).toNat + j)
  unfold get2d at hmain
  rw [hmain]
  by_cases hc : 0 ≤ x + i ∧ x + i < (img.length : ℤ) ∧ 0 ≤ y + j ∧ y + j < (w : ℤ)
  · rw [if_pos (by omega), if_pos hc]
    have hr2 : (x + size).toNat + i - size = (x + (i : ℤ)).toNat := by omega
    have hc2 : (y + size).toNat + j - size = (y + (j : ℤ)).toNat := by omega
    rw [hr2, hc2]
  · rw [if_neg (by omega), if_neg hc]

theorem eq_zeros2d (p : Patch) (n m : ℕ) (hlen : p.length = n)
    (hrow : ∀ row ∈ p, row.length = m)
    (hz : ∀ i j : ℕ, i < n → j < m → get2d p i j = 0) :
    p = zeros2d n m := by
  unfold zeros2d
  rw [List.eq_replicate_iff]
  refine ⟨hlen, ?_⟩
  intro row hmemr
  obtain ⟨i, hi, hieq⟩ := List.mem_iff_getElem.mp hmemr
  unfold zerosRow
  rw [List.eq_replicate_iff]
  refine ⟨hrow row hmemr, ?_⟩
  intro v hv
  obtain ⟨j, hj, hjeq⟩ := List.mem_iff_getElem.mp hv
  have hjm : j < m := by rw [← hrow row hmemr]; exact hj
  have hzv := hz i j (by omega) hjm
  have h1 : get2d p i j = row.getD j 0 := by
    unfold get2d
    rw [List.getD_eq_getElem?_getD p i [], List.getElem?_eq_getElem hi]
    simp only [Option.getD_some]
    rw [hieq]
  have h2 : row.getD j 0 = v := by
    rw [List.getD_eq_getElem?_getD row j 0, List.getElem?_eq_getElem hj]
    simp only [Option.getD_some]
    rw [hjeq]
  rw [h1, h2] at hzv
  exact hzv

theorem extractPatch_allZero (img : Image) (w size : ℕ) (x y : ℤ)
    (hw : ∀ row ∈ img, row.length = w) (hh : (img.headD []).length = w)
    (hx0 : -(size : ℤ) ≤ x) (hx1 : x ≤ (img.length : ℤ))
    (hy0 : -(size : ℤ) ≤ y) (hy1 : y ≤ (w : ℤ))
    (hout : x + size ≤ 0 ∨ (img.length : ℤ) ≤ x ∨ y + size ≤ 0 ∨ (w : ℤ) ≤ y) :
    extractPatch (padImage img size) size x y = zeros2d size size := by
  apply eq_zeros2d _ _ _ (extractPatch_length img size x y hx0 hx1)
    (extractPatch_rows img w size x y hw hh hy0 hy1)
  intro i j hi hj
  rw [extractPatch_get2d img w size x y hw hh hx0 hx1 hy0 hy1 i j hi hj,
    if_neg (by omega)]

theorem getD_map_padImage (images : List Image) (size : ℕ) (idx : ℕ)
    (h : idx < images.length) :
    (images.map (fun image => padImage image size)).getD idx []
      = padImage (images.getD idx []) size := by
  rw [List.getD_eq_getElem?_getD, List.getElem?_map, List.getElem?_eq_getElem h,
    List.getD_eq_getElem?_getD, List.getElem?_eq_getElem h]
  rfl

theorem extract_eq_foldl (images : List Image)
    (coords : List CoordinateIdentifier) (size : ℕ) :
    CoordinatePatchCollection.extract images coords size
      = coords.foldl
          (fun out cd => (out.add cd (extractedPatchOf images size cd)).1)
          (PatchCollection.init []) := rfl

/-- The source image a coordinate refers to (`images[coordinate.image_index]`). -/
def imageOf (images : List Image) (cd : CoordinateIdentifier) : Image :=
  images.getD (cd.image_index.getD 0) []

theorem extractedPatchOf_eq (images : List Image) (size : ℕ)
    (cd : CoordinateIdentifier) (idx : ℕ) (hidx : cd.image_index = some idx)
    (hlt : idx < images.length) :
    extractedPatchOf images size cd
      = extractPatch (padImage (imageOf images cd) size) size cd.x cd.y := by
  unfold extractedPatchOf imageOf
  rw [hidx]
  show extractPatch ((images.map (fun image => padImage image size)).getD idx [])
      size cd.x cd.y = _
  rw [getD_map_padImage images size idx hlt]
  rfl

/-- **C1** (amended): for a call to `extract(images, coordinates, size)` in
which each coordinate names a valid image index and its corner lies in the
range `-size ≤ x ≤ height`, `-size ≤ y ≤ width` (the range in which Python
slicing of the padded image does not wrap or truncate), the returned store
contains exactly one patch per distinct coordinate, that patch has shape
`size × size`, every sample lying outside the original image bounds equals
zero, and a coordinate whose window lies entirely outside the image yields
an all-zero `size × size` patch. -/
theorem extract_valid_window_spec (images : List Image)
    (coords : List CoordinateIdentifier) (size : ℕ)
    (hrect : ∀ img ∈ images, ∀ row ∈ img, row.length = (img.headD []).length)
    (hvalid : ∀ cd ∈ coords, cd.image_index.isSome = true
       ∧ cd.image_index.getD 0 < images.length
       ∧ -(size : ℤ) ≤ cd.x ∧ cd.x ≤ ((imageOf images cd).length : ℤ)
       ∧ -(size : ℤ) ≤ cd.y
       ∧ cd.y ≤ (((imageOf images cd).headD []).length : ℤ)) :
    ((CoordinatePatchCollection.extract images coords size).patches).map Prod.fst
        = eraseDupsKeepFirst coords
    ∧ ∀ cd ∈ coords, ∃ p : Patch,
        assocLookup
            (CoordinatePatchCollection.extract images coords size).patches cd
          = some p
        ∧ p.length = size ∧ (∀ row ∈ p, row.length = size)
        ∧ (∀ i j : ℕ, i < size → j < size →
            get2d p i j
              = if 0 ≤ cd.x + i ∧ cd.x + i < ((imageOf images cd).length : ℤ)
                   ∧ 0 ≤ cd.y + j
                   ∧ cd.y + j < ((((imageOf images cd).headD []).length : ℕ) : ℤ)
                then get2d (imageOf images cd) (cd.x + i).toNat (cd.y + j).toNat
                else 0)
        ∧ ((cd.x + size ≤ 0 ∨ ((imageOf images cd).length : ℤ) ≤ cd.x
            ∨ cd.y + size ≤ 0
            ∨ ((((imageOf images cd).headD []).length : ℕ) : ℤ) ≤ cd.y)
            → p = zeros2d size size) := by
  rw [extract_eq_foldl]
  constructor
  · rw [foldl_add_keys]
    rfl
  · intro cd hcd
    obtain ⟨hsome, hidxlt, hx0, hx1, hy0, hy1⟩ := hvalid cd hcd
    obtain ⟨idx, hidx⟩ := Option.isSome_iff_exists.mp hsome
    have hgd : cd.image_index.getD 0 = idx := by rw [hidx]; rfl
    rw [hgd] at hidxlt
    have himgmem : imageOf images cd ∈ images := by
      unfold imageOf
      rw [hgd]
      exact getD_mem_of_lt images [] idx hidxlt
    have hw : ∀ row ∈ imageOf images cd,
        row.length = ((imageOf images cd).headD []).length :=
      hrect (imageOf images cd) himgmem
    have hpeq := extractedPatchOf_eq images size cd idx hidx hidxlt
    refine ⟨extractedPatchOf images size cd, ?_, ?_, ?_, ?_, ?_⟩
    · rw [foldl_add_lookup, if_pos hcd]
    · rw [hpeq]
      exact extractPatch_length (imageOf images cd) size cd.x cd.y hx0 hx1
    · rw [hpeq]
      exact extractPatch_rows (imageOf images cd)
        ((imageOf images cd).headD []).length size cd.x cd.y hw rfl hy0 hy1
    · intro i j hi hj
      rw [hpeq]
      exact extractPatch_get2d (imageOf images cd)
        ((imageOf images cd).headD []).length size cd.x cd.y hw rfl
        hx0 hx1 hy0 hy1 i j hi hj
    · intro hout
      rw [hpeq]
      exact extractPatch_allZero (imageOf images cd)
        ((imageOf images cd).headD []).length size cd.x cd.y hw rfl
        hx0 hx1 hy0 hy1 hout

/-- **C1** as frozen is false: the coordinate `(image 0, x = -2, y = 0)`
names a valid image index of the single 1 × 1 image `[[5]]` and its window
lies entirely outside the image, but `extract` with `size = 1` stores the
empty array for it (Python slicing of the padded image wraps the negative
start `-1` to the end of the array), not an all-zero `1 × 1` patch. -/
theorem extract_far_window_counterexample :
    assocLookup (CoordinatePatchCollection.extract [[[5]]]
        [⟨some 0, -2, 0⟩] 1).patches ⟨some 0, -2, 0⟩ = some []
    ∧ ([] : Patch) ≠ zeros2d 1 1 := by
  constructor
  · decide
  · decide

/-- Witness inputs for the amended C1: one 2 × 2 image and three
coordinates — fully inside, partly outside, and entirely outside. -/
def c1Images : List Image := [[[1, 2], [3, 4]]]

def c1Coords : List CoordinateIdentifier :=
  [⟨some 0, 0, 0⟩, ⟨some 0, -1, -1⟩, ⟨some 0, 2, 2⟩]

/-- Witness for the amended C1 at a concrete input. -/
theorem extract_valid_window_spec_witness :
    ((CoordinatePatchCollection.extract c1Images c1Coords 1).patches).map Prod.fst
        = eraseDupsKeepFirst c1Coords
    ∧ ∀ cd ∈ c1Coords, ∃ p : Patch,
        assocLookup
            (CoordinatePatchCollection.extract c1Images c1Coords 1).patches cd
          = some p
        ∧ p.length = 1 ∧ (∀ row ∈ p, row.length = 1)
        ∧ (∀ i j : ℕ, i < 1 → j < 1 →
            get2d p i j
              = if 0 ≤ cd.x + i ∧ cd.x + i < ((imageOf c1Images cd).length : ℤ)
                   ∧ 0 ≤ cd.y + j
                   ∧ cd.y + j < ((((imageOf c1Images cd).headD []).length : ℕ) : ℤ)
                then get2d (imageOf c1Images cd) (cd.x + i).toNat (cd.y + j).toNat
                else 0)
        ∧ ((cd.x + 1 ≤ 0 ∨ ((imageOf c1Images cd).length : ℤ) ≤ cd.x
            ∨ cd.y + 1 ≤ 0
            ∨ ((((imageOf c1Images cd).headD []).length : ℕ) : ℤ) ≤ cd.y)
            → p = zeros2d 1 1) :=
  extract_valid_window_spec c1Images c1Coords 1 (by decide) (by decide)

/-! ## `CoordinatePatchCollection.average` -/

/-- The exceptions `average` can raise, with the data their messages carry.
`noneSize` models Python's `TypeError` when `self._size` is `None`. -/
inductive AvgError where
  | valueError (mode : String) (validModes : List String)
  | sizeTooSmall (size srcSize : ℕ)
  | sizeParity (size srcSize : ℕ)
  | noneSize
deriving DecidableEq, Repr

/-- Python `repr` of a list of strings, as an f-string interpolates it. -/
def pyListRepr (l : List String) : String :=
  "[" ++ String.intercalate ", " (l.map (fun s => "\x27" ++ s ++ "\x27")) ++ "]"

/-- The exception messages, reproducing the source f-strings (including the
missing space after the first closing parenthesis in the two
`InvalidSizeError` messages, where two string literals abut). -/
def AvgError.message : AvgError → String
  | .valueError mode validModes =>
      "Found a mode of " ++ mode ++ " but it must be in the list "
        ++ pyListRepr validModes ++ "."
  | .sizeTooSmall size srcSize =>
      "The average window size (found " ++ toString size
        ++ ")must be larger than the existing patch size (found "
        ++ toString srcSize ++ ")."
  | .sizeParity size srcSize =>
      "The average window size (found " ++ toString size
        ++ ")must be the same parity as the existing patch size (found "
        ++ toString srcSize ++ ")."
  | .noneSize => "unsupported operand type(s)"

/-- `CoordinatePatchCollection._validate_average_mode`. -/
def validateAverageMode (mode : String) : Except AvgError Unit :=
  if mode ∈ ["median", "mean"] then Except.ok ()
  else Except.error (.valueError mode ["median", "mean"])

/-- `CoordinatePatchCollection._calculate_pad_shape`: the symmetric per-side
pad amount `pad_amount // 2`, or the `InvalidSizeError` the code raises. -/
def calculatePadShape (size : ℕ) (srcSize : Option ℕ) : Except AvgError ℕ :=
  match srcSize with
  | none => Except.error .noneSize
  | some s =>
    if ((size : ℤ) - (s : ℤ)) < 0 then Except.error (.sizeTooSmall size s)
    else if ((size : ℤ) - (s : ℤ)) % 2 ≠ 0 then Except.error (.sizeParity size s)
    else Except.ok (((size : ℤ) - (s : ℤ)).toNat / 2)

/-- `np.max(patch)` (numpy needs a non-empty array; the `0` sentinel for an
empty one is never reached by the theorems below). -/
def patchMax (p : Patch) : ℚ :=
  match p.flatMap id with
  | [] => 0
  | v :: vs => vs.foldl max v

/-- `patch / np.max(patch)`. -/
def normalizePatch (p : Patch) : Patch :=
  p.map (fun row => row.map (fun v => v / patchMax p))

/-- Does the half-open box `[corner, corner + step)` contain `(cx, cy)`?
This is the per-corner content of `x_matches * y_matches` in `average`. -/
def matchesBin (corner : ℤ × ℤ) (step : ℤ) (cx cy : ℤ) : Bool :=
  decide (corner.1 ≤ cx) && decide (cx < corner.1 + step)
    && decide (corner.2 ≤ cy) && decide (cy < corner.2 + step)

/-- The dict-comprehension key list `{tuple(corner): ... for corner in
corners}`: distinct corners, first occurrences first. -/
def cornersDedup (corners : List (ℤ × ℤ)) : List (ℤ × ℤ) :=
  corners.foldl (fun acc c => if c ∈ acc then acc else acc ++ [c]) []

/-- Elementwise sum of two same-shape arrays:
`np.nansum([a, b], axis=0)` on NaN-free data. -/
def addPatch (a b : Patch) : Patch :=
  a.zipWith (fun ra rb => ra.zipWith (fun u v => u + v) rb) b

/-- Elementwise division of an array by a scalar count. A zero count (a mean
bin with no contributions) divides by zero — undefined behaviour flagged in
the spec; `ℚ` division by zero returns the sentinel `0` where numpy gives
`NaN`, and no theorem below touches that case. -/
def divPatch (p : Patch) (n : ℕ) : Patch :=
  p.map (fun row => row.map (fun v => v / (n : ℚ)))

/-- Insertion into a sorted list (ascending). -/
def insertSorted (v : ℚ) : List ℚ → List ℚ
  | [] => [v]
  | w :: ws => if v ≤ w then v :: w :: ws else w :: insertSorted v ws

/-- Ascending sort (numpy's sort, as far as values are concerned). -/
def sortQ (l : List ℚ) : List ℚ := l.foldr insertSorted []

/-- `np.median` of a 1-D list of values: middle element of the sorted list,
or the mean of the two middle elements when the length is even. -/
def medianQ (l : List ℚ) : ℚ :=
  if l.length % 2 = 1 then (sortQ l).getD (l.length / 2) 0
  else ((sortQ l).getD (l.length / 2 - 1) 0 + (sortQ l).getD (l.length / 2) 0) / 2

/-- `np.nanmedian(stack, axis=0)` over a stack of `size × size` arrays. -/
def stackMedian (size : ℕ) (l : List Patch) : Patch :=
  (List.range size).map (fun i =>
    (List.range size).map (fun j => medianQ (l.map (fun p => get2d p i j))))

/-- The `median_stack` dict at the end of the patch loop, as a function of
the corner: each source patch is peak-normalized, padded, and appended to
the stack of every matching corner occurrence, in loop order. -/
def medianStackFun (patches : List (CoordinateIdentifier × Patch))
    (corners : List (ℤ × ℤ)) (step : ℤ) (s padHalf : ℕ) :
    (ℤ × ℤ) → List Patch :=
  patches.foldl
    (fun f kp =>
      (corners.filter (fun cr =>
        matchesBin cr step (kp.1.x + ((s / 2 : ℕ) : ℤ))
          (kp.1.y + ((s / 2 : ℕ) : ℤ)))).foldl
        (fun g cr =>
          Function.update g cr (g cr ++ [padImage (normalizePatch kp.2) padHalf]))
        f)
    (fun _ => [])

/-- The `mean_stack`/`counts` dicts at the end of the patch loop, as a
function of the corner: running elementwise sum and contribution count. -/
def meanStackFun (patches : List (CoordinateIdentifier × Patch))
    (corners : List (ℤ × ℤ)) (step : ℤ) (s size padHalf : ℕ) :
    (ℤ × ℤ) → Patch × ℕ :=
  patches.foldl
    (fun f kp =>
      (corners.filter (fun cr =>
        matchesBin cr step (kp.1.x + ((s / 2 : ℕ) : ℤ))
          (kp.1.y + ((s / 2 : ℕ) : ℤ)))).foldl
        (fun g cr =>
          Function.update g cr
            (addPatch (g cr).1 (padImage (normalizePatch kp.2) padHalf),
             (g cr).2 + 1))
        f)
    (fun _ => (zeros2d size size, 0))

/-- `CoordinatePatchCollection.average`, in state-passing style: the first
component is the returned collection or the raised exception, the second is
`self` after the call (the method only ever reads `self`, and every numpy
operation it uses allocates a fresh array, so `self` comes back unchanged in
every branch). -/
def averageRun (c : PatchCollection) (corners : List (ℤ × ℤ)) (step : ℤ)
    (size : ℕ) (mode : String) :
    Except AvgError PatchCollection × PatchCollection :=
  match validateAverageMode mode with
  | .error e => (.error e, c)
  | .ok _ =>
    match calculatePadShape size c.size with
    | .error e => (.error e, c)
    | .ok padHalf =>
      if mode = "mean" then
        (.ok (PatchCollection.init ((cornersDedup corners).map (fun cr =>
          (⟨none, cr.1, cr.2⟩,
           divPatch (meanStackFun c.patches corners step (c.size.getD 0) size
               padHalf cr).1
             (meanStackFun c.patches corners step (c.size.getD 0) size
               padHalf cr).2)))), c)
      else
        (.ok (PatchCollection.init ((cornersDedup corners).map (fun cr =>
          (⟨none, cr.1, cr.2⟩,
           if 0 < (medianStackFun c.patches corners step (c.size.getD 0)
               padHalf cr).length
           then stackMedian size
             (medianStackFun c.patches corners step (c.size.getD 0) padHalf cr)
           else zeros2d size size)))), c)

theorem foldl_update_append (l : List (ℤ × ℤ)) (g0 : (ℤ × ℤ) → List Patch)
    (p : Patch) (b : ℤ × ℤ) :
    (l.foldl (fun g cr => Function.update g cr (g cr ++ [p])) g0) b
      = g0 b ++ (l.filter (fun cr => decide (cr = b))).map (fun _ => p) := by
  induction l generalizing g0 with
  | nil => simp
  | cons cr l ih =>
    rw [List.foldl_cons, ih]
    by_cases hc : cr = b
    · subst hc
      rw [Function.update_same, List.filter_cons, if_pos (by simp)]
      simp
    · rw [Function.update_noteq (fun h => hc h.symm), List.filter_cons,
        if_neg (by simp [hc])]

/-- The contribution list a corner receives in the patch loop: for each
source patch, one copy of its normalized/padded array per occurrence of the
corner among the corners whose box contains the patch center. -/
def binContribs (patches : List (CoordinateIdentifier × Patch))
    (corners : List (ℤ × ℤ)) (step : ℤ) (s padHalf : ℕ) (b : ℤ × ℤ) :
    List Patch :=
  patches.flatMap (fun kp =>
    ((corners.filter (fun cr =>
        matchesBin cr step (kp.1.x + ((s / 2 : ℕ) : ℤ))
          (kp.1.y + ((s / 2 : ℕ) : ℤ)))).filter
      (fun cr => decide (cr = b))).map
      (fun _ => padImage (normalizePatch kp.2) padHalf))

theorem medianStackFun_aux (patches : List (CoordinateIdentifier × Patch))
    (corners : List (ℤ × ℤ)) (step : ℤ) (s padHalf : ℕ)
    (g0 : (ℤ × ℤ) → List Patch) (b : ℤ × ℤ) :
    (patches.foldl
      (fun f kp =>
        (corners.filter (fun cr =>
          matchesBin cr step (kp.1.x + ((s / 2 : ℕ) : ℤ))
            (kp.1.y + ((s / 2 : ℕ) : ℤ)))).foldl
          (fun g cr =>
            Function.update g cr (g cr ++ [padImage (normalizePatch kp.2) padHalf]))
          f)
      g0) b
      = g0 b ++ binContribs patches corners step s padHalf b := by
  induction patches generalizing g0 with
  | nil => simp [binContribs]
  | cons kp ps ih =>
    rw [List.foldl_cons, ih, foldl_update_append]
    rw [List.append_assoc]
    congr 1


theorem medianStackFun_apply (patches : List (CoordinateIdentifier × Patch))
    (corners : List (ℤ × ℤ)) (step : ℤ) (s padHalf : ℕ) (b : ℤ × ℤ) :
    medianStackFun patches corners step s padHalf b
      = binContribs patches corners step s padHalf b := by
  unfold medianStackFun
  rw [medianStackFun_aux]
  rfl

theorem mem_foldl_dedup (l acc : List (ℤ × ℤ)) (b : ℤ × ℤ) :
    b ∈ l.foldl (fun acc c => if c ∈ acc then acc else acc ++ [c]) acc
      ↔ b ∈ acc ∨ b ∈ l := by
  induction l generalizing acc with
  | nil => simp
  | cons c cs ih =>
    rw [List.foldl_cons, ih]
    by_cases hc : c ∈ acc
    · rw [if_pos hc]
      constructor
      · intro h
        rcases h with h | h
        · exact Or.inl h
        · exact Or.inr (List.mem_cons_of_mem c h)
      · intro h
        rcases h with h | h
        · exact Or.inl h
        · rcases List.mem_cons.mp h with h2 | h2
          · exact Or.inl (h2 ▸ hc)
          · exact Or.inr h2
    · rw [if_neg hc]
      rw [List.mem_append, List.mem_singleton, List.mem_cons]
      constructor
      · intro h
        rcases h with (h | h) | h
        · exact Or.inl h
        · exact Or.inr (Or.inl h)
        · exact Or.inr (Or.inr h)
      · intro h
        rcases h with h | h | h
        · exact Or.inl (Or.inl h)
        · exact Or.inl (Or.inr h)
        · exact Or.inr h

theorem mem_cornersDedup_iff (corners : List (ℤ × ℤ)) (b : ℤ × ℤ) :
    b ∈ cornersDedup corners ↔ b ∈ corners := by
  unfold cornersDedup
  rw [mem_foldl_dedup]
  simp

theorem assocLookup_cornerMap (l : List (ℤ × ℤ)) (val : (ℤ × ℤ) → Patch)
    (b : ℤ × ℤ) (hb : b ∈ l) :
    assocLookup (l.map (fun cr => (⟨none, cr.1, cr.2⟩, val cr)))
        ⟨none, b.1, b.2⟩ = some (val b) := by
  induction l with
  | nil => cases hb
  | cons c cs ih =>
    rw [List.map_cons, assocLookup]
    by_cases hc : c = b
    · subst hc
      rw [if_pos rfl]
    · rw [if_neg (by
        intro h
        injection h with h1 h2 h3
        exact hc (Prod.ext h2 h3))]
      exact ih (by
        rcases List.mem_cons.mp hb with h | h
        · exact absurd h.symm hc
        · exact h)

theorem filter_eq_singleton_of_nodup (corners : List (ℤ × ℤ))
    (hnodup : corners.Nodup) (b : ℤ × ℤ) (hb : b ∈ corners)
    (p : (ℤ × ℤ) → Bool) :
    (corners.filter p).filter (fun cr => decide (cr = b))
      = if p b then [b] else [] := by
  rw [List.filter_filter]
  induction corners with
  | nil => cases hb
  | cons c cs ih =>
    rw [List.filter_cons]
    rcases List.nodup_cons.mp hnodup with ⟨hnotin, hnd⟩
    by_cases hc : c = b
    · subst hc
      have hrest : cs.filter (fun a => decide (a = c) && p a) = [] := by
        rw [List.filter_eq_nil_iff]
        intro a ha
        simp only [Bool.and_eq_true, decide_eq_true_eq]
        intro hcon
        exact hnotin (hcon.1 ▸ ha)
      by_cases hp : p c = true
      · rw [if_pos (by simp [hp]), hrest, if_pos hp]
      · rw [if_neg (by simp [hp]), hrest, if_neg hp]
    · rw [if_neg (by simp [hc])]
      rcases List.mem_cons.mp hb with h | h
      · exact absurd h.symm hc
      · exact ih hnd h

theorem binContribs_eq_of_nodup (patches : List (CoordinateIdentifier × Patch))
    (corners : List (ℤ × ℤ)) (step : ℤ) (s padHalf : ℕ) (b : ℤ × ℤ)
    (hnodup : corners.Nodup) (hb : b ∈ corners) :
    binContribs patches corners step s padHalf b
      = (patches.filter (fun kp =>
          matchesBin b step (kp.1.x + ((s / 2 : ℕ) : ℤ))
            (kp.1.y + ((s / 2 : ℕ) : ℤ)))).map
          (fun kp => padImage (normalizePatch kp.2) padHalf) := by
  induction patches with
  | nil => rfl
  | cons kp ps ih =>
    unfold binContribs
    rw [List.flatMap_cons]
    rw [filter_eq_singleton_of_nodup corners hnodup b hb, List.filter_cons]
    by_cases hm : matchesBin b step (kp.1.x + ((s / 2 : ℕ) : ℤ))
        (kp.1.y + ((s / 2 : ℕ) : ℤ)) = true
    · rw [if_pos hm, if_pos hm, List.map_cons]
      unfold binContribs at ih
      rw [ih]
      rfl
    · rw [if_neg hm, if_neg hm]
      unfold binContribs at ih
      rw [List.map_nil, List.nil_append, ih]

theorem binContribs_eq_nil (patches : List (CoordinateIdentifier × Patch))
    (corners : List (ℤ × ℤ)) (step : ℤ) (s padHalf : ℕ) (b : ℤ × ℤ)
    (hnomatch : ∀ kp ∈ patches,
      matchesBin b step (kp.1.x + ((s / 2 : ℕ) : ℤ))
        (kp.1.y + ((s / 2 : ℕ) : ℤ)) = false) :
    binContribs patches corners step s padHalf b = [] := by
  induction patches with
  | nil => rfl
  | cons kp ps ih =>
    unfold binContribs
    rw [List.flatMap_cons]
    have h1 : ((corners.filter (fun cr =>
        matchesBin cr step (kp.1.x + ((s / 2 : ℕ) : ℤ))
          (kp.1.y + ((s / 2 : ℕ) : ℤ)))).filter
        (fun cr => decide (cr = b))) = [] := by
      rw [List.filter_eq_nil_iff]
      intro cr hcr
      simp only [decide_eq_true_eq]
      intro hcrb
      subst hcrb
      have := List.of_mem_filter hcr
      rw [hnomatch kp (List.mem_cons_self kp ps)] at this
      · cases this
    rw [h1, List.map_nil, List.nil_append]
    unfold binContribs at ih
    exact ih (fun kp2 h => hnomatch kp2 (List.mem_cons_of_mem kp h))

theorem calculatePadShape_ok (size s : ℕ) (hle : s ≤ size)
    (hpar : (size - s) % 2 = 0) :
    calculatePadShape size (some s) = Except.ok ((size - s) / 2) := by
  unfold calculatePadShape
  show (if ((size : ℤ) - (s : ℤ)) < 0 then Except.error (AvgError.sizeTooSmall size s)
    else if ((size : ℤ) - (s : ℤ)) % 2 ≠ 0 then Except.error (AvgError.sizeParity size s)
    else Except.ok (((size : ℤ) - (s : ℤ)).toNat / 2)) = Except.ok ((size - s) / 2)
  rw [if_neg (by omega), if_neg (by omega)]
  have ht : ((size : ℤ) - (s : ℤ)).toNat = size - s := by omega
  rw [ht]

theorem init_patches (l : List (CoordinateIdentifier × Patch)) :
    (PatchCollection.init l).patches = l := by
  cases l <;> rfl

theorem averageRun_median_eq (c : PatchCollection) (corners : List (ℤ × ℤ))
    (step : ℤ) (size s : ℕ) (hs : c.size = some s) (hle : s ≤ size)
    (hpar : (size - s) % 2 = 0) :
    averageRun c corners step size "median"
      = (Except.ok (PatchCollection.init ((cornersDedup corners).map (fun cr =>
          (⟨none, cr.1, cr.2⟩,
           if 0 < (medianStackFun c.patches corners step s ((size - s) / 2)
               cr).length
           then stackMedian size
             (medianStackFun c.patches corners step s ((size - s) / 2) cr)
           else zeros2d size size)))), c) := by
  unfold averageRun
  rw [show validateAverageMode "median" = Except.ok () from rfl, hs,
    calculatePadShape_ok size s hle hpar]
  rfl

/-- **C2**: in `average` (median mode shown, where the accumulation is
directly observable as the stacked list), each source patch's center is
`(identifier.x, identifier.y) + floor(original patch size / 2)` in the
original unpadded frame, and the normalized/padded patch is accumulated into
exactly those bins whose half-open box `[corner, corner + step)` contains
that center on both axes; the per-bin filter may select zero, one, or many
of the store's patches, and overlapping corners may each receive the same
patch. -/
theorem average_binning_center_spec (c : PatchCollection)
    (corners : List (ℤ × ℤ)) (step : ℤ) (size s : ℕ)
    (hs : c.size = some s) (hle : s ≤ size) (hpar : (size - s) % 2 = 0)
    (hnodup : corners.Nodup) :
    ∃ out, (averageRun c corners step size "median").1 = Except.ok out
      ∧ ∀ b ∈ corners,
          assocLookup out.patches ⟨none, b.1, b.2⟩
            = some (
                if 0 < ((c.patches.filter (fun kp =>
                    matchesBin b step (kp.1.x + ((s / 2 : ℕ) : ℤ))
                      (kp.1.y + ((s / 2 : ℕ) : ℤ)))).map
                    (fun kp =>
                      padImage (normalizePatch kp.2) ((size - s) / 2))).length
                then stackMedian size ((c.patches.filter (fun kp =>
                    matchesBin b step (kp.1.x + ((s / 2 : ℕ) : ℤ))
                      (kp.1.y + ((s / 2 : ℕ) : ℤ)))).map
                    (fun kp =>
                      padImage (normalizePatch kp.2) ((size - s) / 2)))
                else zeros2d size size) := by
  rw [averageRun_median_eq c corners step size s hs hle hpar]
  refine ⟨_, rfl, ?_⟩
  intro b hb
  rw [init_patches,
    assocLookup_cornerMap _ _ b ((mem_cornersDedup_iff corners b).mpr hb)]
  have hms : medianStackFun c.patches corners step s ((size - s) / 2) b
      = (c.patches.filter (fun kp =>
          matchesBin b step (kp.1.x + ((s / 2 : ℕ) : ℤ))
            (kp.1.y + ((s / 2 : ℕ) : ℤ)))).map
          (fun kp => padImage (normalizePatch kp.2) ((size - s) / 2)) := by
    rw [medianStackFun_apply]
    exact binContribs_eq_of_nodup c.patches corners step s ((size - s) / 2) b
      hnodup hb
  rw [hms]

/-- Witness store for the aggregation claims: one 2 × 2 patch at the
origin. -/
def aggStore : PatchCollection :=
  PatchCollection.init [(⟨some 0, 0, 0⟩, [[1, 1], [1, 1]])]

/-- Witness for C2 at a concrete input. -/
theorem average_binning_center_spec_witness :
    ∃ out, (averageRun aggStore [(0, 0), (50, 50)] 10 2 "median").1
        = Except.ok out
      ∧ ∀ b ∈ [((0 : ℤ), (0 : ℤ)), (50, 50)],
          assocLookup out.patches ⟨none, b.1, b.2⟩
            = some (
                if 0 < ((aggStore.patches.filter (fun kp =>
                    matchesBin b 10 (kp.1.x + ((2 / 2 : ℕ) : ℤ))
                      (kp.1.y + ((2 / 2 : ℕ) : ℤ)))).map
                    (fun kp =>
                      padImage (normalizePatch kp.2) ((2 - 2) / 2))).length
                then stackMedian 2 ((aggStore.patches.filter (fun kp =>
                    matchesBin b 10 (kp.1.x + ((2 / 2 : ℕ) : ℤ))
                      (kp.1.y + ((2 / 2 : ℕ) : ℤ)))).map
                    (fun kp =>
                      padImage (normalizePatch kp.2) ((2 - 2) / 2)))
                else zeros2d 2 2) :=
  average_binning_center_spec aggStore [(0, 0), (50, 50)] 10 2 2
    (by decide) (by decide) (by decide) (by decide)

/-- **C4**: both uniform patches peak-normalize to all ones, and mean-mode
aggregation of the two patches `[[1,1],[1,1]]` and `[[3,3],[3,3]]` mapped to
the single bin `(0,0)` produces the patch `[[1,1],[1,1]]` (elementwise sum
divided by the contribution count 2). -/
theorem average_mean_uniform_patches_example :
    normalizePatch [[1, 1], [1, 1]] = [[1, 1], [1, 1]]
    ∧ normalizePatch [[3, 3], [3, 3]] = [[1, 1], [1, 1]]
    ∧ (averageRun (PatchCollection.init
        [(⟨some 0, 0, 0⟩, [[1, 1], [1, 1]]), (⟨some 0, 1, 1⟩, [[3, 3], [3, 3]])])
        [(0, 0)] 10 2 "mean").1
      = Except.ok (PatchCollection.init
          [(⟨none, 0, 0⟩, [[1, 1], [1, 1]])]) := by
  refine ⟨by with_unfolding_all rfl, by with_unfolding_all rfl,
    by with_unfolding_all rfl⟩

/-- **C5**: calling `average` with a mode other than `"mean"`/`"median"`
returns a `ValueError` whose message names the offending value and the
valid set, and the source collection comes back unchanged (no store is
mutated). -/
theorem average_invalid_mode_spec (c : PatchCollection)
    (corners : List (ℤ × ℤ)) (step : ℤ) (size : ℕ) (mode : String)
    (hm1 : mode ≠ "median") (hm2 : mode ≠ "mean") :
    averageRun c corners step size mode
        = (Except.error (AvgError.valueError mode ["median", "mean"]), c)
    ∧ (AvgError.valueError mode ["median", "mean"]).message
        = "Found a mode of " ++ mode ++ " but it must be in the list "
            ++ "[\x27median\x27, \x27mean\x27]" ++ "." := by
  constructor
  · unfold averageRun validateAverageMode
    rw [if_neg (by simp [hm1, hm2])]
  · show "Found a mode of " ++ mode ++ " but it must be in the list "
        ++ pyListRepr ["median", "mean"] ++ "." = _
    rw [show pyListRepr ["median", "mean"] = "[\x27median\x27, \x27mean\x27]"
      from rfl]

/-- Witness for C5 at a concrete input. -/
theorem average_invalid_mode_spec_witness :
    averageRun aggStore [(0, 0)] 10 2 "bogus"
        = (Except.error (AvgError.valueError "bogus" ["median", "mean"]),
           aggStore)
    ∧ (AvgError.valueError "bogus" ["median", "mean"]).message
        = "Found a mode of " ++ "bogus" ++ " but it must be in the list "
            ++ "[\x27median\x27, \x27mean\x27]" ++ "." :=
  average_invalid_mode_spec aggStore [(0, 0)] 10 2 "bogus"
    (by decide) (by decide)

/-- **C6**: calling `average` (with a valid mode) on a store of size `s`
with a target `size` where `size - s` is negative or odd returns an
`InvalidSizeError` — `sizeTooSmall` when negative, `sizeParity` when odd —
and the source collection comes back unchanged: the validation error comes
before any accumulation, so no half-mutated store is observable. -/
theorem average_bad_size_spec (c : PatchCollection) (corners : List (ℤ × ℤ))
    (step : ℤ) (size s : ℕ) (mode : String) (hs : c.size = some s)
    (hmode : mode = "median" ∨ mode = "mean")
    (hbad : (size : ℤ) - (s : ℤ) < 0 ∨ ((size : ℤ) - (s : ℤ)) % 2 = 1) :
    averageRun c corners step size mode
      = (Except.error (if (size : ℤ) - (s : ℤ) < 0
          then AvgError.sizeTooSmall size s else AvgError.sizeParity size s),
         c) := by
  have hv : validateAverageMode mode = Except.ok () := by
    rcases hmode with h | h <;> subst h <;> rfl
  have hcalc : calculatePadShape size (some s)
      = Except.error (if (size : ℤ) - (s : ℤ) < 0
          then AvgError.sizeTooSmall size s
          else AvgError.sizeParity size s) := by
    unfold calculatePadShape
    show (if ((size : ℤ) - (s : ℤ)) < 0
        then Except.error (AvgError.sizeTooSmall size s)
        else if ((size : ℤ) - (s : ℤ)) % 2 ≠ 0
          then Except.error (AvgError.sizeParity size s)
          else Except.ok (((size : ℤ) - (s : ℤ)).toNat / 2)) = _
    by_cases h0 : (size : ℤ) - (s : ℤ) < 0
    · rw [if_pos h0, if_pos h0]
    · rw [if_neg h0, if_pos (by omega), if_neg h0]
  unfold averageRun
  rw [hv, hs, hcalc]

/-- Witness for C6 at a concrete input (parity mismatch: 3 - 2 is odd). -/
theorem average_bad_size_spec_witness :
    averageRun aggStore [(0, 0)] 10 3 "median"
      = (Except.error (if (3 : ℤ) - (2 : ℤ) < 0
          then AvgError.sizeTooSmall 3 2 else AvgError.sizeParity 3 2),
         aggStore) :=
  average_bad_size_spec aggStore [(0, 0)] 10 3 2 "median"
    (by decide) (Or.inl rfl) (by decide)

/-- **C7**: under median mode, a bin corner to which zero patches were
assigned still appears in the output store, keyed `(none, corner)`, and maps
to the all-zero `size × size` patch. -/
theorem average_median_empty_bin_spec (c : PatchCollection)
    (corners : List (ℤ × ℤ)) (step : ℤ) (size s : ℕ)
    (hs : c.size = some s) (hle : s ≤ size) (hpar : (size - s) % 2 = 0)
    (b : ℤ × ℤ) (hb : b ∈ corners)
    (hnomatch : ∀ kp ∈ c.patches,
      matchesBin b step (kp.1.x + ((s / 2 : ℕ) : ℤ))
        (kp.1.y + ((s / 2 : ℕ) : ℤ)) = false) :
    ∃ out, (averageRun c corners step size "median").1 = Except.ok out
      ∧ assocLookup out.patches ⟨none, b.1, b.2⟩
          = some (zeros2d size size) := by
  rw [averageRun_median_eq c corners step size s hs hle hpar]
  refine ⟨_, rfl, ?_⟩
  rw [init_patches,
    assocLookup_cornerMap _ _ b ((mem_cornersDedup_iff corners b).mpr hb)]
  have hms : medianStackFun c.patches corners step s ((size - s) / 2) b = [] := by
    rw [medianStackFun_apply]
    exact binContribs_eq_nil c.patches corners step s ((size - s) / 2) b hnomatch
  rw [hms]
  rfl

/-- Witness for C7 at a concrete input: the bin at `(50, 50)` receives no
patch. -/
theorem average_median_empty_bin_spec_witness :
    ∃ out, (averageRun aggStore [(0, 0), (50, 50)] 10 2 "median").1
        = Except.ok out
      ∧ assocLookup out.patches ⟨none, 50, 50⟩ = some (zeros2d 2 2) :=
  average_median_empty_bin_spec aggStore [(0, 0), (50, 50)] 10 2 2
    (by decide) (by decide) (by decide) (50, 50) (by decide) (by decide)

/-- **C10**: `average` never mutates the source collection: in every
branch, error or success, the state-passing embedding returns `self`
unchanged (the method only reads `self._patches`/`self._size`, and
normalization/padding allocate fresh arrays). -/
theorem average_never_mutates_source (c : PatchCollection)
    (corners : List (ℤ × ℤ)) (step : ℤ) (size : ℕ) (mode : String) :
    (averageRun c corners step size mode).2 = c := by
  unfold averageRun
  split
  · rfl
  · split
    · rfl
    · split
      · rfl
      · rfl

/-- **C3**: reconstructing a non-empty store from a persisted copy gives
back exactly the same identifiers and bit-identical patch arrays, and the
size re-derived on load from the first entry equals the original store's
size whenever that store's own size invariant holds (as it does for every
store built through `__init__`/`add`, which derive `_size` the same way). -/
theorem save_load_roundtrip_spec (c : PatchCollection)
    (k : CoordinateIdentifier) (p : Patch)
    (rest : List (CoordinateIdentifier × Patch))
    (hpat : c.patches = (k, p) :: rest) :
    (PatchCollection.load (PatchCollection.save c)).patches = c.patches
    ∧ (PatchCollection.load (PatchCollection.save c)).size = some p.length
    ∧ (c.size = some p.length
        → PatchCollection.load (PatchCollection.save c) = c) := by
  obtain ⟨pat, sz⟩ := c
  have hp : pat = (k, p) :: rest := hpat
  subst hp
  refine ⟨init_patches _, rfl, ?_⟩
  intro hsz
  have hs2 : sz = some p.length := hsz
  subst hs2
  rfl

/-- Witness for C3 at a concrete input. -/
theorem save_load_roundtrip_spec_witness :
    (PatchCollection.load (PatchCollection.save aggStore)).patches
        = aggStore.patches
    ∧ (PatchCollection.load (PatchCollection.save aggStore)).size
        = some ([[1, 1], [1, 1]] : Patch).length
    ∧ (aggStore.size = some ([[1, 1], [1, 1]] : Patch).length
        → PatchCollection.load (PatchCollection.save aggStore) = aggStore) :=
  save_load_roundtrip_spec aggStore ⟨some 0, 0, 0⟩ [[1, 1], [1, 1]] [] rfl

/-- **C8**: `add` on an identifier already present warns (the `Bool` is the
`warnings.warn` call), stores the new patch under that identifier, and
leaves the store's length unchanged. -/
theorem add_overwrite_spec (c : PatchCollection)
    (identifier : CoordinateIdentifier) (patch : Patch)
    (h : (assocLookup c.patches identifier).isSome = true) :
    (c.add identifier patch).2 = true
    ∧ assocLookup (c.add identifier patch).1.patches identifier = some patch
    ∧ (c.add identifier patch).1.patches.length = c.patches.length := by
  refine ⟨h, ?_, ?_⟩
  · exact assocLookup_dictInsert_self c.patches identifier patch
  · exact length_dictInsert_mem c.patches identifier patch h

/-- Witness for C8 at a concrete input. -/
theorem add_overwrite_spec_witness :
    (aggStore.add ⟨some 0, 0, 0⟩ [[2]]).2 = true
    ∧ assocLookup (aggStore.add ⟨some 0, 0, 0⟩ [[2]]).1.patches ⟨some 0, 0, 0⟩
        = some [[2]]
    ∧ (aggStore.add ⟨some 0, 0, 0⟩ [[2]]).1.patches.length
        = aggStore.patches.length :=
  add_overwrite_spec aggStore ⟨some 0, 0, 0⟩ [[2]] rfl

/-! ## Fitting -/

/-- Modelled from the spec: `SimplePSF` (defined in `psfpy/psf.py`, which is
not part of the sources here) is a parametric PSF model; the only part the
fitter reads is its ordered list of declared parameter names
(`base_psf.parameters`). -/
structure SimplePSF where
  parameters : List String

/-- `raise NotImplementedError(...)`. -/
inductive FitError where
  | notImplemented (msg : String)
deriving DecidableEq, Repr

/-- `CoordinatePatchCollection.fit`: unconditionally
`raise NotImplementedError("TODO")`; the `Empty` payload records that no
value is ever returned. -/
def CoordinatePatchCollection.fit (c : PatchCollection) (base_psf : SimplePSF)
    (is_varied : Bool) : Except FitError Empty :=
  Except.error (.notImplemented "TODO")

/-- The `Parameters` object built by `_fit_lmfit`: one
`(name, initial value)` entry per declared parameter, where
`initial_guesses[parameter]` raises a `KeyError` (the carried `String`) when
a declared parameter has no guess. -/
def buildInitialParams (names : List String) (guesses : List (String × ℚ)) :
    Except String (List (String × ℚ)) :=
  match names with
  | [] => Except.ok []
  | n :: ns =>
    match guesses.lookup n with
    | none => Except.error n
    | some v =>
      match buildInitialParams ns guesses with
      | Except.error e => Except.error e
      | Except.ok rest => Except.ok ((n, v) :: rest)

/-- `PatchCollectionABC._fit_lmfit`. Modelled from the spec: lmfit's
`minimize` is an external solver; it is abstracted as an arbitrary function
`minimize` of the initial parameters and the patch (the coordinate meshgrid
and the residual lambda are internal to that call).  One `MinimizerResult`
is produced per identifier, in store order. -/
def fitLmfit {μ : Type} (minimize : List (String × ℚ) → Patch → μ)
    (c : PatchCollection) (base_psf : SimplePSF)
    (initial_guesses : List (String × ℚ)) :
    Except String (List (CoordinateIdentifier × μ)) :=
  match buildInitialParams base_psf.parameters initial_guesses with
  | Except.error e => Except.error e
  | Except.ok initial =>
    Except.ok (c.patches.map (fun kp => (kp.1, minimize initial kp.2)))

/-- **C9**: the public `fit` raises `NotImplementedError` for every model
and both values of `is_varied`, so it never produces a fit result; the
private `_fit_lmfit` helper, on a non-empty store whose declared parameters
all have initial guesses, returns exactly one minimizer result per
identifier of the store, in store order. -/
theorem fit_not_implemented_spec {μ : Type} (c : PatchCollection)
    (base_psf : SimplePSF) (is_varied : Bool)
    (minimize : List (String × ℚ) → Patch → μ)
    (guesses initial : List (String × ℚ))
    (hinit : buildInitialParams base_psf.parameters guesses
      = Except.ok initial)
    (hne : c.patches ≠ []) :
    CoordinatePatchCollection.fit c base_psf is_varied
        = Except.error (FitError.notImplemented "TODO")
    ∧ ∃ results, fitLmfit minimize c base_psf guesses = Except.ok results
        ∧ results.map Prod.fst = c.patches.map Prod.fst
        ∧ results ≠ [] := by
  refine ⟨rfl,
    ⟨c.patches.map (fun kp => (kp.1, minimize initial kp.2)), ?_, ?_, ?_⟩⟩
  · unfold fitLmfit
    rw [hinit]
  · rw [List.map_map]
    rfl
  · intro hmap
    exact hne (List.map_eq_nil_iff.mp hmap)

/-- Witness for C9 at a concrete input. -/
theorem fit_not_implemented_spec_witness :
    CoordinatePatchCollection.fit aggStore ⟨["a"]⟩ true
        = Except.error (FitError.notImplemented "TODO")
    ∧ ∃ results,
        fitLmfit (fun _ _ => ()) aggStore ⟨["a"]⟩ [("a", 1)]
          = Except.ok results
        ∧ results.map Prod.fst = aggStore.patches.map Prod.fst
        ∧ results ≠ [] :=
  fit_not_implemented_spec aggStore ⟨["a"]⟩ true (fun _ _ => ())
    [("a", 1)] [("a", 1)] rfl (by decide)
